import Mathlib

/-!
Verification of the job-queue subsystem of the claudecodeui repository.

The durable job store (`jobs` table backed by SQLite) is modelled as a
`List Job` in rowid/insertion order; timestamps (ISO date strings in the
code, which compare identically to their millisecond values) are `Nat`
milliseconds; the SQL queries of `db.js` and the worker methods of
`jobWorker` are translated into executable Lean functions over that list.
-/

namespace CCUI

/-- One row of the `jobs` table (schema in `server/database/init.sql`).
`options` is the serialized TEXT column; nullable columns are `Option`. -/
structure Job where
  id : Nat
  project_name : String
  session_id : Option String
  command : String
  options : String
  status : String
  priority : Int
  created_at : Nat
  started_at : Option Nat
  completed_at : Option Nat
  error_message : Option String
  user_id : Option Nat
deriving DecidableEq

/-- `CASE WHEN status = 'pending' THEN 0 ELSE 1 END` from the
`getNextJobForProject` ORDER BY clause. -/
def statusRank (j : Job) : Nat :=
  if j.status == "pending" then 0 else 1

/-- `a` sorts strictly before `b` under
`ORDER BY CASE WHEN status = 'pending' THEN 0 ELSE 1 END, priority DESC, created_at ASC`. -/
def jobBefore (a b : Job) : Bool :=
  decide (statusRank a < statusRank b) ||
    (statusRank a == statusRank b &&
      (decide (b.priority < a.priority) ||
        (a.priority == b.priority && decide (a.created_at < b.created_at))))

/-- `SELECT j1.session_id FROM jobs j1 WHERE j1.project_name = ? AND
j1.status = 'running' AND j1.session_id IS NOT NULL`. -/
def runningSessions (p : String) (st : List Job) : List String :=
  (st.filter (fun j =>
    j.project_name == p && j.status == "running" && j.session_id.isSome)).filterMap
      (fun j => j.session_id)

/-- `project_name = ? AND status IN ('pending', 'failed')`. -/
def isCandidateJob (p : String) (j : Job) : Bool :=
  j.project_name == p && (j.status == "pending" || j.status == "failed")

/-- The session restriction of `getNextJobForProject`: applied only when some
session is running for the project (`session_id IS NULL OR session_id NOT IN (...)`). -/
def sessionOk (sess : List String) (j : Job) : Bool :=
  sess.isEmpty ||
    (match j.session_id with
     | none => true
     | some s => !(sess.contains s))

/-- The candidate rows of the `getNextJobForProject` query. -/
def candidates (st : List Job) (p : String) : List Job :=
  st.filter (fun j => isCandidateJob p j && sessionOk (runningSessions p st) j)

/-- `ORDER BY ... LIMIT 1`: the first row minimal under `jobBefore`
(table order breaks ties). -/
def pickMin (l : List Job) : Option Job :=
  l.foldl
    (fun acc j =>
      match acc with
      | none => some j
      | some m => if jobBefore j m then some j else some m)
    none

/-- `jobDb.getNextJobForProject` (db.js): next pending-or-failed job for the
project, excluding sessions that currently have a running job. -/
def getNextJobForProject (st : List Job) (p : String) : Option Job :=
  pickMin (candidates st p)

/-- `jobDb.updateJobStatus` (db.js): `UPDATE jobs SET status = ?,
[started_at = ?,] [completed_at = ?,] [error_message = ?] WHERE id = ?`,
with `started_at` only on `'running'`, `completed_at` only on
`'completed'`/`'failed'`, and `error_message` only when the argument is
truthy (non-null and non-empty). -/
def updateJobStatus (st : List Job) (jobId : Nat) (status : String)
    (errorMessage : Option String) (now : Nat) : List Job :=
  st.map (fun j =>
    if j.id == jobId then
      { j with
        status := status
        started_at := if status == "running" then some now else j.started_at
        completed_at :=
          if status == "running" then j.completed_at
          else if status == "completed" || status == "failed" then some now
          else j.completed_at
        error_message :=
          match errorMessage with
          | some m => if m == "" then j.error_message else some m
          | none => j.error_message }
    else j)

/-! ### Order lemmas for the claim query -/

theorem jobBefore_trans {a b c : Job} (h1 : jobBefore a b = true)
    (h2 : jobBefore b c = true) : jobBefore a c = true := by
  simp only [jobBefore, Bool.or_eq_true, Bool.and_eq_true, decide_eq_true_eq,
    beq_iff_eq] at h1 h2 ⊢
  omega

theorem jobBefore_total_trans {a b c : Job} (h1 : jobBefore a b = false)
    (h2 : jobBefore a c = true) : jobBefore b c = true := by
  simp only [jobBefore, Bool.or_eq_true, Bool.and_eq_true, decide_eq_true_eq,
    beq_iff_eq, Bool.or_eq_false_iff, Bool.and_eq_false_iff,
    decide_eq_false_iff_not, beq_eq_false_iff_ne, not_lt] at h1 h2 ⊢
  rcases h1 with ⟨h1a, h1b⟩
  omega

theorem jobBefore_irrefl (a : Job) : jobBefore a a = false := by
  simp only [jobBefore, Bool.or_eq_false_iff, Bool.and_eq_false_iff,
    decide_eq_false_iff_not, not_lt]
  omega

/-- The fold in `pickMin` never drops back to `none`. -/
theorem pickMin_foldl_isSome (l : List Job) (m : Job) :
    (l.foldl
      (fun acc j =>
        match acc with
        | none => some j
        | some m => if jobBefore j m then some j else some m)
      (some m)).isSome = true := by
  induction l generalizing m with
  | nil => rfl
  | cons j rest ih =>
    simp only [List.foldl_cons]
    by_cases h : jobBefore j m = true
    · simp [h, ih]
    · simp [h, ih]

theorem pickMin_eq_none_iff (l : List Job) : pickMin l = none ↔ l = [] := by
  cases l with
  | nil => simp [pickMin]
  | cons j rest =>
    simp only [pickMin, List.foldl_cons]
    constructor
    · intro h
      have := pickMin_foldl_isSome rest j
      rw [h] at this
      simp at this
    · intro h
      exact absurd h (List.cons_ne_nil j rest)

/-- Invariant of the `pickMin` fold: the result is one of the seen elements
(or the initial accumulator) and no seen element strictly precedes it. -/
theorem pickMin_foldl_spec (l : List Job) (acc : Option Job) (m : Job)
    (h : l.foldl
      (fun acc j =>
        match acc with
        | none => some j
        | some m => if jobBefore j m then some j else some m)
      acc = some m) :
    (m ∈ l ∨ acc = some m) ∧
      (∀ x, x ∈ l ∨ acc = some x → jobBefore x m = false) := by
  induction l generalizing acc with
  | nil =>
    simp only [List.foldl_nil] at h
    refine ⟨Or.inr h, ?_⟩
    intro x hx
    rcases hx with hx | hx
    · simp at hx
    · rw [h] at hx
      cases hx
      exact jobBefore_irrefl m
  | cons j rest ih =>
    simp only [List.foldl_cons] at h
    cases acc with
    | none =>
      have h' := ih (some j) h
      refine ⟨?_, ?_⟩
      · rcases h'.1 with hm | hm
        · exact Or.inl (List.mem_cons_of_mem _ hm)
        · cases hm
          exact Or.inl (List.mem_cons_self _ _)
      · intro x hx
        rcases hx with hx | hx
        · rcases List.mem_cons.mp hx with hx | hx
          · subst hx
            exact h'.2 x (Or.inr rfl)
          · exact h'.2 x (Or.inl hx)
        · simp at hx
    | some a =>
      dsimp only at h
      by_cases hja : jobBefore j a = true
      · rw [if_pos hja] at h
        have h' := ih (some j) h
        refine ⟨?_, ?_⟩
        · rcases h'.1 with hm | hm
          · exact Or.inl (List.mem_cons_of_mem _ hm)
          · cases hm
            exact Or.inl (List.mem_cons_self _ _)
        · intro x hx
          have hjm : jobBefore j m = false := h'.2 j (Or.inr rfl)
          rcases hx with hx | hx
          · rcases List.mem_cons.mp hx with hx | hx
            · subst hx
              exact hjm
            · exact h'.2 x (Or.inl hx)
          · have hax : a = x := by injection hx
            subst hax
            by_cases ham : jobBefore a m = true
            · exact absurd (jobBefore_trans hja ham) (by simp [hjm])
            · simpa using ham
      · rw [if_neg hja] at h
        have hja' : jobBefore j a = false := by
          simpa using hja
        have h'' := ih (some a) h
        refine ⟨?_, ?_⟩
        · rcases h''.1 with hm | hm
          · exact Or.inl (List.mem_cons_of_mem _ hm)
          · cases hm
            exact Or.inr rfl
        · intro x hx
          have ham : jobBefore a m = false := h''.2 a (Or.inr rfl)
          rcases hx with hx | hx
          · rcases List.mem_cons.mp hx with hx | hx
            · subst hx
              by_cases hxm : jobBefore x m = true
              · exact absurd (jobBefore_total_trans hja' hxm) (by simp [ham])
              · simpa using hxm
            · exact h''.2 x (Or.inl hx)
          · have hax : a = x := by injection hx
            subst hax
            exact ham

theorem pickMin_mem {l : List Job} {m : Job} (h : pickMin l = some m) : m ∈ l := by
  rcases (pickMin_foldl_spec l none m h).1 with hm | hm
  · exact hm
  · simp at hm

theorem pickMin_minimal {l : List Job} {m : Job} (h : pickMin l = some m) :
    ∀ x ∈ l, jobBefore x m = false := fun x hx =>
  (pickMin_foldl_spec l none m h).2 x (Or.inl hx)

/-- Unpacking of a successful claim: the returned row is a stored row of the
project in a claimable status that passes the running-session restriction. -/
theorem getNext_some_props {st : List Job} {p : String} {j : Job}
    (h : getNextJobForProject st p = some j) :
    j ∈ st ∧ j.project_name = p ∧ (j.status = "pending" ∨ j.status = "failed") ∧
      sessionOk (runningSessions p st) j = true := by
  have hmem : j ∈ candidates st p := pickMin_mem h
  obtain ⟨hst, hpred⟩ := List.mem_filter.mp hmem
  simp only [isCandidateJob, Bool.and_eq_true, Bool.or_eq_true, beq_iff_eq] at hpred
  exact ⟨hst, hpred.1.1, hpred.1.2, hpred.2⟩

theorem mem_runningSessions {p : String} {st : List Job} {s : String} :
    s ∈ runningSessions p st ↔
      ∃ b ∈ st, b.project_name = p ∧ b.status = "running" ∧ b.session_id = some s := by
  simp only [runningSessions, List.mem_filterMap, List.mem_filter,
    Bool.and_eq_true, beq_iff_eq, Option.isSome_iff_exists]
  constructor
  · rintro ⟨b, ⟨hb, ⟨hp, hr⟩, -⟩, hs⟩
    exact ⟨b, hb, hp, hr, hs⟩
  · rintro ⟨b, hb, hp, hr, hs⟩
    exact ⟨b, ⟨hb, ⟨hp, hr⟩, ⟨s, hs⟩⟩, hs⟩

/-- **C1.** `getNextJobForProject` returns `none` exactly when the candidate
set (status `pending`/`failed`, session not currently running for the
project) is empty, and otherwise returns a candidate that no other candidate
strictly precedes under the order: `pending` before `failed`, then higher
`priority` first, then earlier `created_at` first (so in particular a
pending job is returned before any failed job of higher priority). -/
theorem getNextJobForProject_selects_minimal_candidate (st : List Job) (p : String) :
    (getNextJobForProject st p = none ↔ candidates st p = []) ∧
    ∀ j, getNextJobForProject st p = some j →
      j ∈ candidates st p ∧ ∀ c ∈ candidates st p, jobBefore c j = false :=
  ⟨pickMin_eq_none_iff _, fun _ h => ⟨pickMin_mem h, pickMin_minimal h⟩⟩

/-- Pending job A: priority 0, created first. -/
def jobA : Job := ⟨1, "proj", none, "a", "null", "pending", 0, 1, none, none, none, none⟩
/-- Pending job B: priority 5, created second. -/
def jobB : Job := ⟨2, "proj", none, "b", "null", "pending", 5, 2, none, none, none, none⟩
/-- Pending job C: priority 5, created third. -/
def jobC : Job := ⟨3, "proj", none, "c", "null", "pending", 5, 3, none, none, none, none⟩
/-- Failed job F: priority 9, higher than every pending job. -/
def jobF : Job := ⟨4, "proj", none, "f", "null", "failed", 9, 0, none, none, none, none⟩

/-- Witness for C1: on the spec's scenario (pending A/B/C plus a failed job
of higher priority) the claim query returns B, which is a candidate. -/
theorem getNextJobForProject_selects_minimal_candidate_witness :
    jobB ∈ candidates [jobA, jobB, jobC, jobF] "proj" :=
  ((getNextJobForProject_selects_minimal_candidate [jobA, jobB, jobC, jobF] "proj").2
    jobB (by decide)).1

/-! ### `updateJobStatus` (claim C5) -/

/-- The per-row update of `updateJobStatus`, rewritten from the code's
`if`/`else if` cascade into the claim's flat conditions. -/
theorem updateRow_eq (j : Job) (status : String) (msg : Option String) (now : Nat) :
    ({ j with
        status := status
        started_at := if status == "running" then some now else j.started_at
        completed_at :=
          if status == "running" then j.completed_at
          else if status == "completed" || status == "failed" then some now
          else j.completed_at
        error_message :=
          match msg with
          | some m => if m == "" then j.error_message else some m
          | none => j.error_message } : Job)
    = { j with
        status := status
        started_at := if status = "running" then some now else j.started_at
        completed_at :=
          if status = "completed" ∨ status = "failed" then some now else j.completed_at
        error_message :=
          match msg with
          | some m => if m = "" then j.error_message else some m
          | none => j.error_message } := by
  by_cases h1 : status = "running" <;> cases msg <;> simp_all

/-- **C5 (amended).** `updateJobStatus(jobId, status, errorMessage?)`: the
matched job's `status` becomes the given status; `started_at` is set to the
current time iff the new status is `running`; `completed_at` is set iff the
new status is `completed` or `failed`; `error_message` is set whenever a
non-empty one is supplied (an empty string is ignored by the code's
truthiness check); all other fields of the job, and every job with a
different id, are unchanged. -/
theorem updateJobStatus_fields (st : List Job) (jobId : Nat) (status : String)
    (msg : Option String) (now : Nat) :
    ∀ j ∈ st,
      (j.id ≠ jobId → j ∈ updateJobStatus st jobId status msg now) ∧
      (j.id = jobId →
        ({ j with
            status := status
            started_at := if status = "running" then some now else j.started_at
            completed_at :=
              if status = "completed" ∨ status = "failed" then some now
              else j.completed_at
            error_message :=
              match msg with
              | some m => if m = "" then j.error_message else some m
              | none => j.error_message } : Job)
          ∈ updateJobStatus st jobId status msg now) := by
  intro j hj
  constructor
  · intro hne
    simp only [updateJobStatus]
    refine List.mem_map.mpr ⟨j, hj, ?_⟩
    rw [if_neg (by simpa using hne)]
  · intro heq
    simp only [updateJobStatus]
    refine List.mem_map.mpr ⟨j, hj, ?_⟩
    rw [if_pos (by simpa using heq)]
    exact updateRow_eq j status msg now

/-- Counterexample for C5 as stated: an empty error message is supplied
(`errorMessage = ''`), yet the code's truthiness check skips the column, so
the stored `error_message` stays `NULL` instead of the supplied value. -/
theorem updateJobStatus_emptyMessage_counterexample :
    (updateJobStatus [jobA] 1 "completed" (some "") 9).map Job.error_message = [none] := by
  decide

/-- Witness for C5 at a concrete store: job 2 is untouched, and job 1 gets
`status = running`, `started_at` set, `completed_at` kept, and the supplied
non-empty message stored. -/
theorem updateJobStatus_fields_witness :
    jobB ∈ updateJobStatus [jobA, jobB] 1 "running" (some "boom") 7 ∧
    ({ jobA with
        status := "running"
        started_at := if "running" = "running" then some 7 else jobA.started_at
        completed_at :=
          if "running" = "completed" ∨ "running" = "failed" then some 7
          else jobA.completed_at
        error_message := if "boom" = "" then jobA.error_message else some "boom" } : Job)
      ∈ updateJobStatus [jobA, jobB] 1 "running" (some "boom") 7 :=
  ⟨(updateJobStatus_fields [jobA, jobB] 1 "running" (some "boom") 7 jobB (by decide)).1
      (by decide),
   (updateJobStatus_fields [jobA, jobB] 1 "running" (some "boom") 7 jobA (by decide)).2 rfl⟩

/-! ### The worker's claim-then-mark-running step (claims C2, C6, C9) -/

/-- Lines 831-847 of the worker (`processProjectJobs`): claim the next job
via `getNextJobForProject` and, if one exists, immediately persist
`status = 'running'` for it. -/
def claimAndMarkRunning (st : List Job) (p : String) (now : Nat) :
    List Job × Option Job :=
  match getNextJobForProject st p with
  | none => (st, none)
  | some job => (updateJobStatus st job.id "running" none now, some job)

/-- The store after one claim-then-mark-running step. -/
def claimStep (st : List Job) (p : String) (now : Nat) : List Job :=
  (claimAndMarkRunning st p now).1

/-- System-wide session exclusivity: no two distinct rows sharing a non-null
`session_id` are both `running`. -/
def sessionExclusive (st : List Job) : Prop :=
  ∀ a ∈ st, ∀ b ∈ st, a.id ≠ b.id → a.status = "running" → b.status = "running" →
    a.session_id.isSome = true → a.session_id ≠ b.session_id

/-- Per-project session exclusivity: no two distinct rows of the same
project sharing a non-null `session_id` are both `running`. -/
def sessionExclusivePerProject (st : List Job) : Prop :=
  ∀ a ∈ st, ∀ b ∈ st, a.id ≠ b.id → a.project_name = b.project_name →
    a.status = "running" → b.status = "running" →
    a.session_id.isSome = true → a.session_id ≠ b.session_id

instance (st : List Job) : Decidable (sessionExclusive st) := by
  unfold sessionExclusive
  infer_instance

instance (st : List Job) : Decidable (sessionExclusivePerProject st) := by
  unfold sessionExclusivePerProject
  infer_instance

/-- A job running with session "s" in project `alpha`. -/
def jobRunAlpha : Job :=
  ⟨1, "alpha", some "s", "r", "null", "running", 0, 0, some 0, none, none, none⟩
/-- A pending job with the same session "s" but in project `beta`. -/
def jobPendBeta : Job :=
  ⟨2, "beta", some "s", "q", "null", "pending", 0, 1, none, none, none, none⟩

/-- Counterexample for C2 as stated: the running-session query of
`getNextJobForProject` filters on `project_name`, so a claim step for
project `beta` happily marks running a job whose non-null session already
has a running job in project `alpha` — the invariant is not system-wide. -/
theorem sessionExclusivity_not_systemWide_counterexample :
    sessionExclusive [jobRunAlpha, jobPendBeta] ∧
      ¬ sessionExclusive (claimStep [jobRunAlpha, jobPendBeta] "beta" 5) := by
  decide

/-- Rows of `updateJobStatus st jobId status msg now` are the rows of `st`,
with only the row(s) matching `jobId` rewritten (id, project and session
are preserved by the rewrite). -/
theorem mem_updateJobStatus {st : List Job} {jobId : Nat} {status : String}
    {msg : Option String} {now : Nat} {a : Job}
    (h : a ∈ updateJobStatus st jobId status msg now) :
    ∃ a0 ∈ st, a.id = a0.id ∧ a.project_name = a0.project_name ∧
      a.session_id = a0.session_id ∧
      a.status = (if a0.id = jobId then status else a0.status) ∧
      (a0.id ≠ jobId → a = a0) := by
  obtain ⟨a0, ha0, hfa⟩ := List.mem_map.mp h
  refine ⟨a0, ha0, ?_⟩
  by_cases hid : a0.id = jobId
  · rw [if_pos (by simpa using hid)] at hfa
    subst hfa
    exact ⟨rfl, rfl, rfl, (if_pos hid).symm, fun hne => absurd hid hne⟩
  · rw [if_neg (by simpa using hid)] at hfa
    subst hfa
    exact ⟨rfl, rfl, rfl, (if_neg hid).symm, fun _ => rfl⟩

theorem sessionOk_not_running {p : String} {st : List Job} {j0 : Job} {s : String}
    (hok : sessionOk (runningSessions p st) j0 = true)
    (hj0 : j0.session_id = some s) : s ∉ runningSessions p st := by
  intro hs
  have hne : (runningSessions p st).isEmpty = false := by
    cases hre : runningSessions p st with
    | nil => rw [hre] at hs; simp at hs
    | cons x xs => simp [hre]
  rw [sessionOk, hj0] at hok
  simp only [hne, Bool.false_or, Bool.not_eq_true'] at hok
  have htrue : (runningSessions p st).contains s = true := List.elem_eq_true_of_mem hs
  rw [htrue] at hok
  cases hok

/-- **C2 (amended).** A claim-then-mark-running step preserves *per-project*
session exclusivity: if no two distinct running jobs of one project share a
non-null `session_id`, the same holds after `getNextJobForProject` claims a
job and the worker marks it `running`. (The invariant is not system-wide:
see the counterexample — the running-session filter is per project.) -/
theorem claimStep_preserves_perProject_sessionExclusivity
    (st : List Job) (p : String) (now : Nat)
    (hn : (st.map Job.id).Nodup)
    (hex : sessionExclusivePerProject st) :
    sessionExclusivePerProject (claimStep st p now) := by
  unfold claimStep claimAndMarkRunning
  cases hclaim : getNextJobForProject st p with
  | none => exact hex
  | some j0 =>
    obtain ⟨hj0st, hj0p, hj0status, hj0sess⟩ := getNext_some_props hclaim
    dsimp only
    intro a ha b hb hab hproj har hbr hasome
    obtain ⟨a0, ha0, haid, hap, hasess, hastat, haeq⟩ := mem_updateJobStatus ha
    obtain ⟨b0, hb0, hbid, hbp, hbsess, hbstat, hbeq⟩ := mem_updateJobStatus hb
    rw [hasess, hbsess]
    by_cases hida : a0.id = j0.id <;> by_cases hidb : b0.id = j0.id
    · -- both rows are the claimed job: impossible, the ids differ
      exact absurd (haid.trans (hida.trans (hidb.symm.trans hbid.symm))) hab
    · -- `a` is the claimed job, `b` was already running in the store
      have ha0j0 : a0 = j0 := List.inj_on_of_nodup_map hn ha0 hj0st hida
      subst ha0j0
      have hbb0 : b = b0 := hbeq hidb
      have hb0run : b0.status = "running" := by
        rw [hbb0] at hbr
        exact hbr
      intro hcontra
      obtain ⟨s, hs⟩ := Option.isSome_iff_exists.mp (hasess ▸ hasome)
      have hb0s : b0.session_id = some s := by rw [← hcontra, hs]
      have hb0proj : b0.project_name = p := by
        rw [← hbp, ← hbb0] at *
        rw [← hproj, hap, hj0p]
      have : s ∈ runningSessions p st :=
        mem_runningSessions.mpr ⟨b0, hb0, hb0proj, hb0run, hb0s⟩
      exact sessionOk_not_running hj0sess hs this
    · -- `b` is the claimed job, `a` was already running in the store
      have hb0j0 : b0 = j0 := List.inj_on_of_nodup_map hn hb0 hj0st hidb
      subst hb0j0
      have haa0 : a = a0 := haeq hida
      have ha0run : a0.status = "running" := by
        rw [haa0] at har
        exact har
      intro hcontra
      obtain ⟨s, hs⟩ := Option.isSome_iff_exists.mp (hasess ▸ hasome)
      have ha0s : a0.session_id = some s := hs
      have hj0s : b0.session_id = some s := by rw [← hcontra, hs]
      have ha0proj : a0.project_name = p := by
        rw [← hap, hproj, hbp, hj0p]
      have : s ∈ runningSessions p st :=
        mem_runningSessions.mpr ⟨a0, ha0, ha0proj, ha0run, ha0s⟩
      exact sessionOk_not_running hj0sess hj0s this
    · -- neither row is the claimed job: both were already running in `st`
      have haa0 : a = a0 := haeq hida
      have hbb0 : b = b0 := hbeq hidb
      have ha0run : a0.status = "running" := by rw [← haa0]; exact har
      have hb0run : b0.status = "running" := by rw [← hbb0]; exact hbr
      exact hex a0 ha0 b0 hb0 (by rw [← haid, ← hbid]; exact hab)
        (by rw [← hap, ← hbp]; exact hproj) ha0run hb0run
        (by rw [← hasess]; exact hasome)

/-- A job running with session "t" in project `alpha`. -/
def jobRunT : Job :=
  ⟨3, "alpha", some "t", "r", "null", "running", 0, 0, some 0, none, none, none⟩
/-- A pending job with the same session "t" and project. -/
def jobPendT : Job :=
  ⟨4, "alpha", some "t", "q", "null", "pending", 0, 1, none, none, none, none⟩
/-- A pending job with no session in project `alpha`. -/
def jobPendNull : Job :=
  ⟨5, "alpha", none, "n", "null", "pending", 0, 2, none, none, none, none⟩

/-- Witness for C2 at a concrete store: claiming for `alpha` (which skips
the session-conflicting job and marks the sessionless one running)
preserves per-project exclusivity. -/
theorem claimStep_preserves_perProject_sessionExclusivity_witness :
    sessionExclusivePerProject (claimStep [jobRunT, jobPendT, jobPendNull] "alpha" 5) :=
  claimStep_preserves_perProject_sessionExclusivity
    [jobRunT, jobPendT, jobPendNull] "alpha" 5 (by decide) (by decide)

/-! ### `getActiveJobs` and the stuck-job recovery sweep (claim C3) -/

/-- `status IN ('pending', 'running')`. -/
def isActiveJob (j : Job) : Bool :=
  j.status == "pending" || j.status == "running"

/-- `ORDER BY project_name, priority DESC, created_at ASC` of `getActiveJobs`. -/
def activeOrder (a b : Job) : Prop :=
  a.project_name < b.project_name ∨
    (a.project_name = b.project_name ∧
      (b.priority < a.priority ∨ (a.priority = b.priority ∧ a.created_at ≤ b.created_at)))

instance : DecidableRel activeOrder := fun a b => by
  unfold activeOrder
  infer_instance

/-- `jobDb.getActiveJobs` (db.js): all pending/running rows, ordered by
project, priority descending, creation ascending. -/
def getActiveJobs (st : List Job) : List Job :=
  List.insertionSort activeOrder (st.filter isActiveJob)

theorem mem_getActiveJobs {st : List Job} {j : Job} :
    j ∈ getActiveJobs st ↔ j ∈ st ∧ isActiveJob j = true := by
  unfold getActiveJobs
  rw [List.mem_insertionSort, List.mem_filter]

/-- `jobWorker.recoverStuckJobs`: among the active jobs, every `running` row
whose `started_at` (epoch 0 for a NULL column, as `new Date(null)`) is
strictly older than 30 minutes is updated to `failed` with the recovery
diagnostic. -/
def recoverStuckJobs (st : List Job) (now : Nat) : List Job :=
  let thirtyMinutesAgo := now - 30 * 60 * 1000
  let stuckJobs := (getActiveJobs st).filter
    (fun j => j.status == "running" && decide (j.started_at.getD 0 < thirtyMinutesAgo))
  stuckJobs.foldl
    (fun acc j =>
      updateJobStatus acc j.id "failed" (some "Job timeout - marked for recovery") now)
    st

/-- Folding per-element `map`s over a list is a single `map` of the folded
row function. -/
theorem foldl_map_eq (g : Job → Job → Job) (ops : List Job) (st : List Job) :
    ops.foldl (fun acc j => acc.map (g j)) st
      = st.map (fun r => ops.foldl (fun x j => g j x) r) := by
  induction ops generalizing st with
  | nil => simp
  | cons j rest ih =>
    simp only [List.foldl_cons]
    rw [ih, List.map_map]
    rfl

/-- A row whose id matches no op is untouched by the row-update fold. -/
theorem foldl_rowUpdate_not_mem (T : Job → Job) (ops : List Job) (r : Job)
    (h : r.id ∉ ops.map Job.id) :
    ops.foldl (fun x j => if x.id == j.id then T x else x) r = r := by
  induction ops with
  | nil => rfl
  | cons j rest ih =>
    simp only [List.map_cons, List.mem_cons, not_or] at h
    simp only [List.foldl_cons]
    rw [if_neg (by simpa using h.1)]
    exact ih h.2

/-- With pairwise-distinct op ids and an id-preserving row transform, the
row-update fold rewrites a row exactly when its id occurs among the ops. -/
theorem foldl_rowUpdate_eq (T : Job → Job) (hT : ∀ x, (T x).id = x.id)
    (ops : List Job) (hnd : (ops.map Job.id).Nodup) (r : Job) :
    ops.foldl (fun x j => if x.id == j.id then T x else x) r
      = if r.id ∈ ops.map Job.id then T r else r := by
  induction ops with
  | nil => simp
  | cons j rest ih =>
    simp only [List.map_cons, List.nodup_cons] at hnd
    simp only [List.foldl_cons, List.map_cons, List.mem_cons]
    by_cases hid : r.id = j.id
    · rw [if_pos (by simpa using hid), if_pos (Or.inl hid)]
      exact foldl_rowUpdate_not_mem T rest (T r) (by rw [hT, hid]; exact hnd.1)
    · rw [if_neg (by simpa using hid), ih hnd.2]
      by_cases hmem : r.id ∈ rest.map Job.id
      · rw [if_pos hmem, if_pos (Or.inr hmem)]
      · rw [if_neg hmem, if_neg (by rintro (h | h); exact hid h; exact hmem h)]

/-- **C3.** One recovery sweep at time `now` turns into `failed` — with the
recovery diagnostic as `error_message` and `completed_at` stamped — exactly
those jobs that are `running` with a `started_at` strictly older than 30
minutes; every other job (running but fresher, or in any other status) is
returned unchanged. -/
theorem recoverStuckJobs_marks_exactly_stale_running (st : List Job) (now : Nat)
    (hn : (st.map Job.id).Nodup)
    (hrun : ∀ j ∈ st, j.status = "running" → j.started_at.isSome = true)
    (hnow : 30 * 60 * 1000 ≤ now) :
    recoverStuckJobs st now = st.map (fun j =>
      if j.status = "running" ∧ j.started_at.isSome = true ∧
          j.started_at.getD 0 + 30 * 60 * 1000 < now then
        { j with
            status := "failed"
            completed_at := some now
            error_message := some "Job timeout - marked for recovery" }
      else j) := by
  unfold recoverStuckJobs
  have hfil : ((st.filter isActiveJob).map Job.id).Nodup :=
    hn.sublist ((List.filter_sublist st).map Job.id)
  have hperm : List.Perm (getActiveJobs st) (st.filter isActiveJob) :=
    List.perm_insertionSort _ _
  have hact : ((getActiveJobs st).map Job.id).Nodup :=
    ((hperm.map Job.id).nodup_iff).mpr hfil
  have hstuck : (((getActiveJobs st).filter
      (fun j => j.status == "running" &&
        decide (j.started_at.getD 0 < now - 30 * 60 * 1000))).map Job.id).Nodup :=
    hact.sublist ((List.filter_sublist _).map Job.id)
  have hstep : ∀ (acc : List Job) (j : Job),
      updateJobStatus acc j.id "failed" (some "Job timeout - marked for recovery") now
        = acc.map (fun x =>
            if x.id == j.id then
              ({ x with
                  status := "failed"
                  completed_at := some now
                  error_message := some "Job timeout - marked for recovery" } : Job)
            else x) := fun _ _ => rfl
  simp only [hstep]
  rw [foldl_map_eq (fun j x =>
    if x.id == j.id then
      ({ x with
          status := "failed"
          completed_at := some now
          error_message := some "Job timeout - marked for recovery" } : Job)
    else x)]
  rw [funext (foldl_rowUpdate_eq
    (fun x =>
      ({ x with
          status := "failed"
          completed_at := some now
          error_message := some "Job timeout - marked for recovery" } : Job))
    (fun _ => rfl) _ hstuck)]
  refine List.map_congr_left ?_
  intro r hr
  by_cases hc : r.status = "running" ∧ r.started_at.isSome = true ∧
      r.started_at.getD 0 + 30 * 60 * 1000 < now
  · rw [if_pos hc]
    rw [if_pos ?_]
    refine List.mem_map.mpr ⟨r, ?_, rfl⟩
    refine List.mem_filter.mpr ⟨?_, ?_⟩
    · exact mem_getActiveJobs.mpr ⟨hr, by simp [isActiveJob, hc.1]⟩
    · simp only [Bool.and_eq_true, beq_iff_eq, decide_eq_true_eq]
      exact ⟨hc.1, by omega⟩
  · rw [if_neg hc]
    rw [if_neg ?_]
    intro hmem
    obtain ⟨s, hs, hsid⟩ := List.mem_map.mp hmem
    obtain ⟨hsact, hspred⟩ := List.mem_filter.mp hs
    obtain ⟨hsst, -⟩ := mem_getActiveJobs.mp hsact
    have hsr : s = r := List.inj_on_of_nodup_map hn hsst hr hsid
    subst hsr
    simp only [Bool.and_eq_true, beq_iff_eq, decide_eq_true_eq] at hspred
    exact hc ⟨hspred.1, hrun s hr hspred.1, by omega⟩

/-- Running since epoch 0, stale at sweep time 31 minutes. -/
def jobStale : Job :=
  ⟨6, "alpha", none, "s", "null", "running", 0, 0, some 0, none, none, none⟩
/-- Running since minute 21, only 10 minutes old at the sweep. -/
def jobFresh : Job :=
  ⟨7, "alpha", none, "f", "null", "running", 0, 0, some 1260000, none, none, none⟩
/-- A pending job, not touched by recovery. -/
def jobIdle : Job :=
  ⟨8, "alpha", none, "i", "null", "pending", 0, 0, none, none, none, none⟩

/-- Witness for C3: at sweep time 31 minutes, the job started 31 minutes ago
is failed, the one started 10 minutes ago and the pending one are unchanged. -/
theorem recoverStuckJobs_marks_exactly_stale_running_witness :
    recoverStuckJobs [jobStale, jobFresh, jobIdle] 1860000
      = [jobStale, jobFresh, jobIdle].map (fun j =>
        if j.status = "running" ∧ j.started_at.isSome = true ∧
            j.started_at.getD 0 + 30 * 60 * 1000 < 1860000 then
          { j with
              status := "failed"
              completed_at := some 1860000
              error_message := some "Job timeout - marked for recovery" }
        else j) :=
  recoverStuckJobs_marks_exactly_stale_running [jobStale, jobFresh, jobIdle] 1860000
    (by decide) (by decide) (by decide)

/-! ### Retention cleanup (claim C4) -/

/-- `status IN ('completed', 'failed')`. -/
def isTerminalStatus (j : Job) : Bool :=
  j.status == "completed" || j.status == "failed"

/-- A completed/failed row of project `p`. -/
def isTerminalFor (p : String) (j : Job) : Bool :=
  j.project_name == p && isTerminalStatus j

/-- Sort key for `ORDER BY completed_at DESC` (a NULL `completed_at`, which
SQLite sorts last in DESC order, is taken as epoch 0). -/
def completedKey (j : Job) : Nat :=
  j.completed_at.getD 0

/-- `a` may come before `b` in `completed_at DESC` order. -/
def retentionOrder (a b : Job) : Prop :=
  completedKey b ≤ completedKey a

instance : DecidableRel retentionOrder := fun _ _ => Nat.decLe _ _

instance : IsTotal Job retentionOrder :=
  ⟨fun a b => (Nat.le_total (completedKey a) (completedKey b)).symm⟩

instance : IsTrans Job retentionOrder :=
  ⟨fun _ _ _ h1 h2 => Nat.le_trans h2 h1⟩

/-- The subquery of `cleanupOldJobs`: `SELECT id FROM jobs WHERE project_name
= ? AND status IN ('completed','failed') ORDER BY completed_at DESC LIMIT 100`. -/
def keepIds (p : String) (st : List Job) : List Nat :=
  ((List.insertionSort retentionOrder (st.filter (isTerminalFor p))).take 100).map Job.id

/-- The per-project DELETE of `cleanupOldJobs`: completed/failed rows of the
project whose id is not among the kept 100 are removed. -/
def cleanupProject (p : String) (st : List Job) : List Job :=
  st.filter (fun j => !(isTerminalFor p j && !((keepIds p st).contains j.id)))

/-- `jobDb.cleanupOldJobs(projectName?)` (db.js): clean one project, or loop
the per-project DELETE over `SELECT DISTINCT project_name FROM jobs`. -/
def cleanupOldJobs (projectName : Option String) (st : List Job) : List Job :=
  match projectName with
  | some p => cleanupProject p st
  | none => ((st.map Job.project_name).dedup).foldl (fun acc p => cleanupProject p acc) st

theorem contains_eq_decide_mem (l : List Nat) (a : Nat) :
    l.contains a = decide (a ∈ l) := by
  show List.elem a l = decide (a ∈ l)
  by_cases h : a ∈ l
  · rw [List.elem_eq_true_of_mem h, decide_eq_true h]
  · rw [decide_eq_false h]
    cases hel : List.elem a l
    · rfl
    · exact absurd (List.mem_of_elem_eq_true hel) h

/-- Counting rows whose key lies in a duplicate-free subset `K` of a
duplicate-free list `M` gives exactly `|K|`. -/
theorem length_filter_contains (M : List Nat) (K : List Nat) (hM : M.Nodup)
    (hK : K.Nodup) (hs : ∀ k ∈ K, k ∈ M) :
    (M.filter (fun x => K.contains x)).length = K.length := by
  induction M generalizing K with
  | nil =>
    cases K with
    | nil => rfl
    | cons k ks => exact absurd (hs k (List.mem_cons_self _ _)) (by simp)
  | cons m M' ih =>
    simp only [List.nodup_cons] at hM
    by_cases hmK : m ∈ K
    · have hpm : (fun x => K.contains x) m = true := by
        show K.contains m = true
        rw [contains_eq_decide_mem]
        simpa using hmK
      rw [List.filter_cons_of_pos hpm, List.length_cons]
      have hcongr : M'.filter (fun x => K.contains x)
          = M'.filter (fun x => (K.erase m).contains x) := by
        refine List.filter_congr ?_
        intro x hx
        rw [contains_eq_decide_mem, contains_eq_decide_mem]
        have hxm : x ≠ m := fun he => hM.1 (he ▸ hx)
        rw [decide_eq_decide]
        exact (List.mem_erase_of_ne hxm).symm
      rw [hcongr, ih (K.erase m) hM.2 (hK.erase m) ?_]
      · rw [List.length_erase_of_mem hmK]
        have := List.length_pos_of_mem hmK
        omega
      · intro k hk
        have hkm : k ≠ m := (hK.mem_erase_iff.mp hk).1
        have hkK : k ∈ K := (hK.mem_erase_iff.mp hk).2
        rcases List.mem_cons.mp (hs k hkK) with h | h
        · exact absurd h hkm
        · exact h
    · rw [List.filter_cons_of_neg ?_]
      · refine ih K hM.2 hK ?_
        intro k hk
        rcases List.mem_cons.mp (hs k hk) with h | h
        · exact absurd (h ▸ hk) hmK
        · exact h
      · show ¬ (fun x => K.contains x) m = true
        show ¬ K.contains m = true
        rw [contains_eq_decide_mem]
        simpa using hmK

theorem keepIds_nodup (p : String) (st : List Job) (hn : (st.map Job.id).Nodup) :
    (keepIds p st).Nodup := by
  have hT : ((st.filter (isTerminalFor p)).map Job.id).Nodup :=
    hn.sublist ((List.filter_sublist st).map Job.id)
  have hperm : List.Perm
      (List.insertionSort retentionOrder (st.filter (isTerminalFor p)))
      (st.filter (isTerminalFor p)) :=
    List.perm_insertionSort _ _
  have hsort : ((List.insertionSort retentionOrder
      (st.filter (isTerminalFor p))).map Job.id).Nodup :=
    ((hperm.map Job.id).nodup_iff).mpr hT
  exact hsort.sublist ((List.take_sublist 100 _).map Job.id)

theorem keepIds_sub (p : String) (st : List Job) :
    ∀ k ∈ keepIds p st, k ∈ (st.filter (isTerminalFor p)).map Job.id := by
  intro k hk
  obtain ⟨s, hs, hsid⟩ := List.mem_map.mp hk
  have hs' : s ∈ List.insertionSort retentionOrder (st.filter (isTerminalFor p)) :=
    List.take_subset 100 _ hs
  exact List.mem_map.mpr ⟨s, (List.mem_insertionSort _).mp hs', hsid⟩

/-- Swapping the conjuncts of a compound filter condition. -/
theorem filter_and_comm (f g : Job → Bool) (l : List Job) :
    l.filter (fun a => f a && g a) = l.filter (fun a => g a && f a) :=
  List.filter_congr (fun a _ => by cases hf : f a <;> cases hg : g a <;> simp [hf, hg])

/-- A per-project DELETE leaves the rows of every other project untouched. -/
theorem cleanupProject_filter_other (p q : String) (hne : p ≠ q) (st : List Job) :
    (cleanupProject p st).filter (fun j => j.project_name == q)
      = st.filter (fun j => j.project_name == q) := by
  unfold cleanupProject
  rw [List.filter_filter]
  refine List.filter_congr ?_
  intro a _
  by_cases hq : a.project_name = q
  · have hp : (a.project_name == p) = false := by
      simp only [beq_eq_false_iff_ne, ne_eq]
      intro h
      exact hne (by rw [← h, hq])
    have hterm : isTerminalFor p a = false := by
      simp [isTerminalFor, hp]
    simp [hterm]
  · simp [show (a.project_name == q) = false by simpa using hq]

/-- The per-project DELETE for `q` depends only on the rows of project `q`. -/
theorem cleanupProject_filter_self (q : String) (st acc : List Job)
    (h : acc.filter (fun j => j.project_name == q)
      = st.filter (fun j => j.project_name == q)) :
    (cleanupProject q acc).filter (fun j => j.project_name == q)
      = (cleanupProject q st).filter (fun j => j.project_name == q) := by
  have hfilT : ∀ x : List Job,
      x.filter (isTerminalFor q)
        = List.filter isTerminalStatus (x.filter (fun j => j.project_name == q)) := by
    intro x
    rw [List.filter_filter]
    refine List.filter_congr ?_
    intro a _
    cases h1 : a.project_name == q <;> cases h2 : isTerminalStatus a <;>
      simp [isTerminalFor, h1, h2]
  have hkeep : keepIds q acc = keepIds q st := by
    unfold keepIds
    rw [hfilT acc, hfilT st, h]
  unfold cleanupProject
  rw [hkeep, List.filter_filter, List.filter_filter,
    filter_and_comm, ← List.filter_filter, h, List.filter_filter, filter_and_comm]

/-- The DISTINCT-projects loop of `cleanupOldJobs()` applies each
per-project DELETE against an unchanged view of that project's rows. -/
theorem foldl_cleanup_filter (L : List String) (st : List Job) :
    ∀ acc : List Job, L.Nodup →
      (∀ q ∈ L, acc.filter (fun j => j.project_name == q)
        = st.filter (fun j => j.project_name == q)) →
      ∀ q : String,
        (L.foldl (fun a pr => cleanupProject pr a) acc).filter
            (fun j => j.project_name == q)
          = if q ∈ L then
              (cleanupProject q st).filter (fun j => j.project_name == q)
            else acc.filter (fun j => j.project_name == q) := by
  induction L with
  | nil =>
    intro acc _ _ q
    simp
  | cons p L' ih =>
    intro acc hnd hacc q
    simp only [List.nodup_cons] at hnd
    simp only [List.foldl_cons]
    have hacc' : ∀ r ∈ L',
        (cleanupProject p acc).filter (fun j => j.project_name == r)
          = st.filter (fun j => j.project_name == r) := by
      intro r hr
      have hpr : p ≠ r := fun he => hnd.1 (he ▸ hr)
      rw [cleanupProject_filter_other p r hpr acc]
      exact hacc r (List.mem_cons_of_mem _ hr)
    rw [ih (cleanupProject p acc) hnd.2 hacc' q]
    by_cases hqL : q ∈ L'
    · rw [if_pos hqL, if_pos (List.mem_cons_of_mem _ hqL)]
    · rw [if_neg hqL]
      by_cases hqp : q = p
      · subst hqp
        rw [if_pos (List.mem_cons_self _ _)]
        exact cleanupProject_filter_self q st acc (hacc q (List.mem_cons_self _ _))
      · rw [if_neg (fun hmem =>
          (List.mem_cons.mp hmem).elim (fun h => hqp h) (fun h => hqL h))]
        exact cleanupProject_filter_other p q (fun he => hqp he.symm) acc

/-- **C4.** Per-project retention: the DELETE removes only rows (never adds
or edits any), keeps every non-terminal row and every row of another
project, leaves exactly `min 100 n` of the `n` completed/failed rows of the
project, and every deleted terminal row has a `completed_at` no newer than
every kept terminal row; with no project argument, the effect on each
project's rows is the same as the per-project call. -/
theorem cleanupOldJobs_retention (st : List Job) (p : String)
    (hn : (st.map Job.id).Nodup) :
    List.Sublist (cleanupProject p st) st ∧
    (∀ j ∈ st, isTerminalFor p j = false → j ∈ cleanupProject p st) ∧
    ((cleanupProject p st).filter (isTerminalFor p)).length
        = min 100 ((st.filter (isTerminalFor p)).length) ∧
    (∀ d ∈ st, isTerminalFor p d = true → d ∉ cleanupProject p st →
      ∀ k ∈ cleanupProject p st, isTerminalFor p k = true →
        completedKey d ≤ completedKey k) ∧
    (∀ q : String,
      (cleanupOldJobs none st).filter (fun j => j.project_name == q)
        = (cleanupOldJobs (some q) st).filter (fun j => j.project_name == q)) := by
  refine ⟨List.filter_sublist st, ?_, ?_, ?_, ?_⟩
  · intro j hj hterm
    exact List.mem_filter.mpr ⟨hj, by simp [hterm]⟩
  · -- retention count
    have hTnodup : ((st.filter (isTerminalFor p)).map Job.id).Nodup :=
      hn.sublist ((List.filter_sublist st).map Job.id)
    have hcount : (((st.filter (isTerminalFor p)).map Job.id).filter
        (fun x => (keepIds p st).contains x)).length = (keepIds p st).length :=
      length_filter_contains _ _ hTnodup (keepIds_nodup p st hn) (keepIds_sub p st)
    have hsplit : (cleanupProject p st).filter (isTerminalFor p)
        = (st.filter (isTerminalFor p)).filter
            (fun a => (keepIds p st).contains a.id) := by
      unfold cleanupProject
      rw [List.filter_filter, List.filter_filter]
      refine List.filter_congr ?_
      intro a _
      cases h1 : isTerminalFor p a <;> cases h2 : (keepIds p st).contains a.id <;>
        simp [h1, h2]
    rw [hsplit]
    have hmapfil : ((st.filter (isTerminalFor p)).filter
          (fun a => (keepIds p st).contains a.id)).map Job.id
        = ((st.filter (isTerminalFor p)).map Job.id).filter
            (fun x => (keepIds p st).contains x) :=
      (@List.filter_map Job Nat (fun x => (keepIds p st).contains x) Job.id
        (st.filter (isTerminalFor p))).symm
    have hlen : ((st.filter (isTerminalFor p)).filter
          (fun a => (keepIds p st).contains a.id)).length
        = (keepIds p st).length := by
      rw [← List.length_map _ Job.id, hmapfil, hcount]
    rw [hlen]
    unfold keepIds
    rw [List.length_map, List.length_take,
      (List.perm_insertionSort retentionOrder (st.filter (isTerminalFor p))).length_eq]
  · -- deleted rows are the oldest
    intro d hd hdterm hdnot k hk hkterm
    have hdc : (keepIds p st).contains d.id = false := by
      cases hc : (keepIds p st).contains d.id
      · rfl
      · refine absurd (List.mem_filter.mpr ⟨hd, ?_⟩) hdnot
        show (!(isTerminalFor p d && !((keepIds p st).contains d.id))) = true
        rw [hdterm, hc]
        rfl
    have hdid : d.id ∉ keepIds p st := by
      rw [contains_eq_decide_mem] at hdc
      simpa using hdc
    obtain ⟨hkst', hkpred⟩ := List.mem_filter.mp hk
    have hkc : (keepIds p st).contains k.id = true := by
      cases hc : (keepIds p st).contains k.id
      · rw [hkterm, hc] at hkpred
        simp at hkpred
      · rfl
    have hkid : k.id ∈ keepIds p st := by
      rw [contains_eq_decide_mem] at hkc
      simpa using hkc
    obtain ⟨k', hk', hk'id⟩ := List.mem_map.mp hkid
    have hk'sorted : k' ∈ List.insertionSort retentionOrder
        (st.filter (isTerminalFor p)) :=
      List.take_subset 100 _ hk'
    have hk'st : k' ∈ st :=
      (List.mem_filter.mp ((List.mem_insertionSort _).mp hk'sorted)).1
    have hkk' : k' = k := List.inj_on_of_nodup_map hn hk'st hkst' hk'id
    have hdT : d ∈ st.filter (isTerminalFor p) := List.mem_filter.mpr ⟨hd, hdterm⟩
    have hdsorted : d ∈ List.insertionSort retentionOrder
        (st.filter (isTerminalFor p)) :=
      (List.mem_insertionSort _).mpr hdT
    have hdsplit := hdsorted
    rw [← List.take_append_drop 100 (List.insertionSort retentionOrder
      (st.filter (isTerminalFor p)))] at hdsplit
    have hddrop : d ∈ (List.insertionSort retentionOrder
        (st.filter (isTerminalFor p))).drop 100 := by
      rcases List.mem_append.mp hdsplit with h | h
      · exact absurd (List.mem_map.mpr ⟨d, h, rfl⟩) hdid
      · exact h
    have hsorted : List.Sorted retentionOrder
        (List.insertionSort retentionOrder (st.filter (isTerminalFor p))) :=
      List.sorted_insertionSort _ _
    rw [← List.take_append_drop 100 (List.insertionSort retentionOrder
      (st.filter (isTerminalFor p)))] at hsorted
    have hrel : retentionOrder k' d :=
      (List.pairwise_append.mp hsorted).2.2 k' hk' d hddrop
    rw [hkk'] at hrel
    exact hrel
  · -- the no-argument loop has the per-project effect on every project
    intro q
    show ((st.map Job.project_name).dedup.foldl
        (fun acc pr => cleanupProject pr acc) st).filter
          (fun j => j.project_name == q)
      = (cleanupProject q st).filter (fun j => j.project_name == q)
    rw [foldl_cleanup_filter ((st.map Job.project_name).dedup) st st
      (List.nodup_dedup _) (fun _ _ => rfl) q]
    by_cases hq : q ∈ (st.map Job.project_name).dedup
    · rw [if_pos hq]
    · rw [if_neg hq]
      have hnil : st.filter (fun j => j.project_name == q) = [] := by
        rw [List.filter_eq_nil_iff]
        intro a ha hpq
        exact hq (List.mem_dedup.mpr (List.mem_map.mpr ⟨a, ha, by simpa using hpq⟩))
      rw [hnil, eq_comm, List.filter_eq_nil_iff]
      intro a ha hpq
      have hast : a ∈ st := (List.mem_filter.mp ha).1
      exact hq (List.mem_dedup.mpr (List.mem_map.mpr ⟨a, hast, by simpa using hpq⟩))

/-- Completed job of project `a`, newest. -/
def jobDoneNew : Job :=
  ⟨10, "a", none, "x", "null", "completed", 0, 1, none, some 30, none, none⟩
/-- Completed job of project `a`, middle. -/
def jobDoneMid : Job :=
  ⟨11, "a", none, "y", "null", "completed", 0, 2, none, some 20, none, none⟩
/-- Failed job of project `a`, oldest. -/
def jobFailOld : Job :=
  ⟨12, "a", none, "z", "null", "failed", 0, 3, none, some 10, none, none⟩
/-- Pending job of project `a`. -/
def jobStillPending : Job :=
  ⟨13, "a", none, "w", "null", "pending", 0, 4, none, none, none, none⟩
/-- Completed job of the other project `b`. -/
def jobOtherDone : Job :=
  ⟨14, "b", none, "v", "null", "completed", 0, 5, none, some 40, none, none⟩

/-- Witness for C4 at a concrete five-row store. -/
theorem cleanupOldJobs_retention_witness :
    ((cleanupProject "a"
        [jobDoneNew, jobDoneMid, jobFailOld, jobStillPending, jobOtherDone]).filter
      (isTerminalFor "a")).length
      = min 100 (([jobDoneNew, jobDoneMid, jobFailOld, jobStillPending,
          jobOtherDone].filter (isTerminalFor "a")).length) :=
  (cleanupOldJobs_retention
    [jobDoneNew, jobDoneMid, jobFailOld, jobStillPending, jobOtherDone] "a"
    (by decide)).2.2.1

/-! ### One pass of the worker loop (claims C6 and C9) -/

/-- The events `processProjectJobs` emits. -/
inductive JobEvent where
  | jobStarted (jobId : Nat) (projectName : String) (sessionId : Option String)
      (command : String)
  | jobCompleted (jobId : Nat) (projectName : String) (sessionId : Option String)
  | jobFailed (jobId : Nat) (projectName : String) (error : String)
  | projectWorkerStopped (projectName : String)
deriving DecidableEq

/-- One pass of `jobWorker.processProjectJobs` for project `p`: claim and
mark running, then await the adapter (`executeJob`/`spawnClaude`), whose
outcome is `Except.ok` on exit code 0 and `Except.error message` on a spawn
failure, non-zero exit or internal adapter error.  The `catch` block records
the failure and emits `job-failed`; the function itself always returns. -/
def processProjectJobsStep (st : List Job) (p : String)
    (outcome : Except String Unit) (now : Nat) : List Job × List JobEvent :=
  match claimAndMarkRunning st p now with
  | (st1, none) => (st1, [JobEvent.projectWorkerStopped p])
  | (st1, some job) =>
    let startEvt := JobEvent.jobStarted job.id job.project_name job.session_id job.command
    match outcome with
    | Except.ok _ =>
      (updateJobStatus st1 job.id "completed" none now,
        [startEvt, JobEvent.jobCompleted job.id job.project_name job.session_id])
    | Except.error e =>
      (updateJobStatus st1 job.id "failed" (some e) now,
        [startEvt, JobEvent.jobFailed job.id p e])

theorem claimAndMarkRunning_snd {st : List Job} {p : String} {now : Nat} {job : Job}
    (h : (claimAndMarkRunning st p now).2 = some job) :
    getNextJobForProject st p = some job ∧
      (claimAndMarkRunning st p now).1 = updateJobStatus st job.id "running" none now := by
  unfold claimAndMarkRunning at h ⊢
  cases hclaim : getNextJobForProject st p with
  | none =>
    rw [hclaim] at h
    simp at h
  | some j =>
    rw [hclaim] at h
    simp only at h
    cases h
    exact ⟨rfl, rfl⟩

/-- The claimed row, marked running: same row with `status = 'running'` and
`started_at = now`. -/
theorem mark_running_mem {st : List Job} {p : String} {now : Nat} {job : Job}
    (h : (claimAndMarkRunning st p now).2 = some job) :
    ({ job with status := "running", started_at := some now } : Job)
      ∈ (claimAndMarkRunning st p now).1 := by
  obtain ⟨hclaim, heq⟩ := claimAndMarkRunning_snd h
  obtain ⟨hjst, -, -, -⟩ := getNext_some_props hclaim
  rw [heq]
  have := (updateJobStatus_fields st job.id "running" none now job hjst).2 rfl
  simpa using this

/-- Counterexample for C6 as stated: the worker stores the adapter error
message verbatim — a 2048-character message is recorded in full, with no
truncation to any shorter diagnostic length. -/
theorem workerError_message_not_truncated_counterexample :
    ((processProjectJobsStep [jobA] "proj"
        (Except.error (String.mk (List.replicate 2048 'x'))) 7).1.map
      Job.error_message) = [some (String.mk (List.replicate 2048 'x'))] ∧
    (String.mk (List.replicate 2048 'x')).length = 2048 := by
  constructor
  · rfl
  · rw [show (String.mk (List.replicate 2048 'x')).length
        = (List.replicate 2048 'x').length from rfl, List.length_replicate]

/-- **C6 (amended).** Any adapter error `e` during execution is caught by the
worker: the claimed job is recorded `failed` with the error message stored
*verbatim* (not truncated; the code's truthiness check only skips an empty
message), a `job-failed` event carrying the same message is emitted, and the
step returns normally (the model is a total function — nothing propagates). -/
theorem workerError_records_failed_verbatim (st : List Job) (p : String)
    (e : String) (now : Nat) (job : Job)
    (hclaim : (claimAndMarkRunning st p now).2 = some job)
    (he : e ≠ "") :
    ({ job with
        status := "failed"
        started_at := some now
        completed_at := some now
        error_message := some e } : Job)
      ∈ (processProjectJobsStep st p (Except.error e) now).1 ∧
    JobEvent.jobFailed job.id p e ∈ (processProjectJobsStep st p (Except.error e) now).2 := by
  obtain ⟨hnext, heq⟩ := claimAndMarkRunning_snd hclaim
  have hrun : ({ job with status := "running", started_at := some now } : Job)
      ∈ (claimAndMarkRunning st p now).1 := mark_running_mem hclaim
  unfold processProjectJobsStep
  rcases hpair : claimAndMarkRunning st p now with ⟨st1, ojob⟩
  rw [hpair] at hclaim hrun heq
  simp only at hclaim hrun heq
  subst hclaim
  constructor
  · have := (updateJobStatus_fields st1 job.id "failed" (some e) now
      ({ job with status := "running", started_at := some now } : Job) hrun).2 rfl
    simp only [show ("failed" = "running") = False by simp,
      show ("failed" = "completed" ∨ "failed" = "failed") = True by simp,
      if_false, if_true, if_neg he] at this
    simpa using this
  · simp

/-- Witness for C6: on a one-job store the failed run is recorded with the
verbatim message and the `job-failed` event is emitted. -/
theorem workerError_records_failed_verbatim_witness :
    ({ jobA with
        status := "failed"
        started_at := some 7
        completed_at := some 7
        error_message := some "Claude CLI exited with code 1" } : Job)
      ∈ (processProjectJobsStep [jobA] "proj"
          (Except.error "Claude CLI exited with code 1") 7).1 ∧
    JobEvent.jobFailed 1 "proj" "Claude CLI exited with code 1"
      ∈ (processProjectJobsStep [jobA] "proj"
          (Except.error "Claude CLI exited with code 1") 7).2 :=
  workerError_records_failed_verbatim [jobA] "proj"
    "Claude CLI exited with code 1" 7 jobA (by decide) (by decide)

/-- Counterexample for C9 as stated: the worker persists `status = 'running'`
*before* invoking the adapter, so a job whose spawn will fail is observable
as `running` in the store (the intermediate state the worker commits), even
though the spawn error then moves it to `failed`. -/
theorem spawnFailure_running_window_counterexample :
    ((claimAndMarkRunning [jobA] "proj" 4).1.map Job.status = ["running"]) ∧
    ((processProjectJobsStep [jobA] "proj"
        (Except.error "spawn claude ENOENT") 4).1.map Job.status = ["failed"]) := by
  decide

/-- **C9 (amended).** A job whose spawn fails is first marked `running` when
claimed (a transient running window, contrary to the claim's "no running
window"), and the worker's error path then records it `failed`; it never
remains `running` after the step. -/
theorem spawnFailure_job_ends_failed (st : List Job) (p : String)
    (e : String) (now : Nat) (job : Job)
    (hclaim : (claimAndMarkRunning st p now).2 = some job) :
    (({ job with status := "running", started_at := some now } : Job)
        ∈ (claimAndMarkRunning st p now).1) ∧
    (({ job with
        status := "failed"
        started_at := some now
        completed_at := some now
        error_message :=
          if e = "" then job.error_message else some e } : Job)
      ∈ (processProjectJobsStep st p (Except.error e) now).1) := by
  obtain ⟨hnext, heq⟩ := claimAndMarkRunning_snd hclaim
  have hrun : ({ job with status := "running", started_at := some now } : Job)
      ∈ (claimAndMarkRunning st p now).1 := mark_running_mem hclaim
  refine ⟨hrun, ?_⟩
  unfold processProjectJobsStep
  rcases hpair : claimAndMarkRunning st p now with ⟨st1, ojob⟩
  rw [hpair] at hclaim hrun
  simp only at hclaim hrun
  subst hclaim
  have := (updateJobStatus_fields st1 job.id "failed" (some e) now
    ({ job with status := "running", started_at := some now } : Job) hrun).2 rfl
  simp only [show ("failed" = "running") = False by simp,
    show ("failed" = "completed" ∨ "failed" = "failed") = True by simp,
    if_false, if_true] at this
  simpa using this

/-- Witness for C9: the concrete spawn-failure run ends `failed` after its
transient `running` window. -/
theorem spawnFailure_job_ends_failed_witness :
    (({ jobB with status := "running", started_at := some 4 } : Job)
        ∈ (claimAndMarkRunning [jobB] "proj" 4).1) ∧
    (({ jobB with
        status := "failed"
        started_at := some 4
        completed_at := some 4
        error_message :=
          if "spawn claude ENOENT" = "" then jobB.error_message
          else some "spawn claude ENOENT" } : Job)
      ∈ (processProjectJobsStep [jobB] "proj"
          (Except.error "spawn claude ENOENT") 4).1) :=
  spawnFailure_job_ends_failed [jobB] "proj" "spawn claude ENOENT" 4 jobB (by decide)

/-! ### The stdout handler of `spawnClaude` (claim C7) -/

/-- Per-process state of the stdout handler: the captured session id
(initialized to the caller-supplied one) and the session-created-sent flag. -/
structure StdoutState where
  capturedSessionId : Option String
  sessionCreatedSent : Bool
deriving DecidableEq

/-- Messages sent over the transport by the stdout handler; `χ` is the type
of records produced by the platform JSON parser. -/
inductive WsMessage (χ : Type) where
  | sessionCreated (sessionId : String)
  | claudeResponse (data : χ)
  | claudeOutput (data : String)
deriving DecidableEq

/-- JS truthiness of an optional string: `null`/absent and `''` are falsy. -/
def truthyStr : Option String → Bool
  | none => false
  | some s => !(s == "")

/-- The body of the per-line loop in `spawnClaude`'s stdout handler: try the
line as JSON (`parse`, the platform `JSON.parse` with `sidOf` reading its
`session_id` field); on success, possibly capture the session id and send
`session-created` once, then send the parsed record as `claude-response`;
otherwise send the raw line as `claude-output`. -/
def handleLine {χ : Type} (parse : String → Option χ) (sidOf : χ → Option String)
    (sessionId : Option String) (acc : StdoutState × List (WsMessage χ))
    (line : String) : StdoutState × List (WsMessage χ) :=
  match parse line with
  | some response =>
    let st := acc.1
    let withSid : StdoutState × List (WsMessage χ) :=
      if truthyStr (sidOf response) && !(truthyStr st.capturedSessionId) then
        if !(truthyStr sessionId) && !st.sessionCreatedSent then
          (⟨sidOf response, true⟩,
            [WsMessage.sessionCreated ((sidOf response).getD "")])
        else (⟨sidOf response, st.sessionCreatedSent⟩, [])
      else (st, [])
    (withSid.1, acc.2 ++ withSid.2 ++ [WsMessage.claudeResponse response])
  | none => (acc.1, acc.2 ++ [WsMessage.claudeOutput line])

/-- JS `rawOutput.split('\n')`: split at every newline, keeping empty parts. -/
def splitNl : List Char → List (List Char)
  | [] => [[]]
  | c :: rest =>
    match splitNl rest with
    | [] => [[]]
    | cur :: done =>
      if c = '\n' then [] :: cur :: done else (c :: cur) :: done

/-- The lines of one stdout chunk. -/
def chunkLines (data : String) : List String :=
  (splitNl data.data).map String.mk

/-- JS truthiness of `line.trim()`: true iff some character is not whitespace. -/
def nonBlank (l : String) : Bool :=
  !(l.data.all Char.isWhitespace)

/-- One `data` chunk of the stdout handler:
`rawOutput.split('\n').filter(line => line.trim())`, then the per-line loop. -/
def handleStdoutData {χ : Type} (parse : String → Option χ)
    (sidOf : χ → Option String) (sessionId : Option String) (st : StdoutState)
    (data : String) : StdoutState × List (WsMessage χ) :=
  ((chunkLines data).filter nonBlank).foldl
    (handleLine parse sidOf sessionId) (st, [])

/-- The two message kinds that deliver an output line. -/
def isDeliveryMsg {χ : Type} : WsMessage χ → Bool
  | WsMessage.claudeResponse _ => true
  | WsMessage.claudeOutput _ => true
  | WsMessage.sessionCreated _ => false

theorem handleLine_foldl {χ : Type} (parse : String → Option χ)
    (sidOf : χ → Option String) (sessionId : Option String) (lines : List String) :
    ∀ (s0 : StdoutState) (ms : List (WsMessage χ)),
      ((lines.foldl (handleLine parse sidOf sessionId) (s0, ms)).2).filter isDeliveryMsg
        = ms.filter isDeliveryMsg ++ lines.map (fun line =>
            match parse line with
            | some r => WsMessage.claudeResponse r
            | none => WsMessage.claudeOutput line) := by
  induction lines with
  | nil =>
    intro s0 ms
    simp
  | cons line rest ih =>
    intro s0 ms
    simp only [List.foldl_cons, List.map_cons]
    rcases hstep : handleLine parse sidOf sessionId (s0, ms) line with ⟨s1, ms1⟩
    have hms1 : ms1.filter isDeliveryMsg
        = ms.filter isDeliveryMsg ++ [match parse line with
            | some r => WsMessage.claudeResponse r
            | none => WsMessage.claudeOutput line] := by
      unfold handleLine at hstep
      cases hp : parse line with
      | some r =>
        rw [hp] at hstep
        simp only at hstep
        by_cases h1 : (truthyStr (sidOf r) && !(truthyStr s0.capturedSessionId)) = true
        · by_cases h2 : (!(truthyStr sessionId) && !s0.sessionCreatedSent) = true
          · rw [if_pos h1, if_pos h2] at hstep
            cases hstep
            simp [List.filter_append, isDeliveryMsg]
          · rw [if_pos h1, if_neg h2] at hstep
            cases hstep
            simp [List.filter_append, isDeliveryMsg]
        · rw [if_neg h1] at hstep
          cases hstep
          simp [List.filter_append, isDeliveryMsg]
      | none =>
        rw [hp] at hstep
        simp only at hstep
        cases hstep
        simp [List.filter_append, isDeliveryMsg]
    rw [ih s1 ms1, hms1, List.append_assoc]
    rfl

/-- **C7 (amended).** Every *non-blank* line of a stdout chunk is delivered
exactly once and in order: as a `claude-response` carrying the parsed record
when the platform parser accepts it, and as a raw-text `claude-output` event
otherwise; parse failure raises nothing and produces no failure, only the
raw event. (Whitespace-only lines are discarded by the handler's
`filter(line => line.trim())` — see the counterexample.) -/
theorem stdout_delivers_each_nonblank_line {χ : Type} (parse : String → Option χ)
    (sidOf : χ → Option String) (sessionId : Option String) (st : StdoutState)
    (data : String) :
    ((handleStdoutData parse sidOf sessionId st data).2).filter isDeliveryMsg
      = ((chunkLines data).filter nonBlank).map (fun line =>
          match parse line with
          | some r => WsMessage.claudeResponse r
          | none => WsMessage.claudeOutput line) := by
  unfold handleStdoutData
  rw [handleLine_foldl]
  rfl

/-- Counterexample for C7 as stated: a whitespace-only output line (here
`"   "`, which no JSON parser accepts) is filtered out before the per-line
loop and produces *no* event at all — it is dropped, not delivered as
raw text; the non-blank line of the same chunk is delivered normally. -/
theorem stdout_blankLine_dropped_counterexample :
    (handleStdoutData (fun _ => (none : Option Unit)) (fun _ => none) none
        ⟨none, false⟩ "   \nok").2
      = [WsMessage.claudeOutput "ok"] := by
  decide

/-! ### `addJob` and the options round trip (claim C8) -/

/-- AUTOINCREMENT: one more than the greatest existing id. -/
def nextJobId (st : List Job) : Nat :=
  (st.map Job.id).foldr max 0 + 1

/-- The row inserted by `jobDb.addJob` (db.js): `options` is stored as
`stringify options` — the platform serializer (`JSON.stringify`) applied to
the caller's value, with nothing in between. -/
def newJobRow {Opt : Type} (stringify : Opt → String) (st : List Job)
    (projectName : String) (sessionId : Option String) (command : String)
    (options : Opt) (userId : Option Nat) (priority : Int) (now : Nat) : Job :=
  { id := nextJobId st
    project_name := projectName
    session_id := sessionId
    command := command
    options := stringify options
    status := "pending"
    priority := priority
    created_at := now
    started_at := none
    completed_at := none
    error_message := none
    user_id := userId }

/-- `jobDb.addJob`: INSERT the new row, returning its id. -/
def addJob {Opt : Type} (stringify : Opt → String) (st : List Job)
    (projectName : String) (sessionId : Option String) (command : String)
    (options : Opt) (userId : Option Nat) (priority : Int) (now : Nat) :
    List Job × Nat :=
  (st ++ [newJobRow stringify st projectName sessionId command options userId
    priority now], nextJobId st)

/-- Reads return the row with `options: JSON.parse(row.options)` — the
platform parser applied to exactly the stored text. -/
def getNextJobForProjectParsed {Opt : Type} (parseOpts : String → Option Opt)
    (st : List Job) (p : String) : Option (Job × Option Opt) :=
  (getNextJobForProject st p).map (fun r => (r, parseOpts r.options))

theorem le_foldr_max (l : List Nat) : ∀ x ∈ l, x ≤ l.foldr max 0 := by
  induction l with
  | nil => intro x hx; simp at hx
  | cons a rest ih =>
    intro x hx
    rcases List.mem_cons.mp hx with h | h
    · subst h
      exact Nat.le_max_left _ _
    · exact Nat.le_trans (ih x h) (Nat.le_max_right _ _)

theorem nextJobId_not_mem (st : List Job) : nextJobId st ∉ st.map Job.id := by
  intro h
  have := le_foldr_max (st.map Job.id) _ h
  unfold nextJobId at this
  omega

/-- **C8.** The options blob is stored verbatim: the inserted row's `options`
text is byte-for-byte `stringify opts`, and a read applies the parser to
exactly that text; hence for any codec that round-trips on the enqueued
value (as the platform JSON codec does on its serializable values), reading
the job back yields an options value equal to the one enqueued. -/
theorem addJob_options_roundTrip {Opt : Type} (stringify : Opt → String)
    (parseOpts : String → Option Opt) (st : List Job) (p : String)
    (sid : Option String) (cmd : String) (opts : Opt) (uid : Option Nat)
    (prio : Int) (now : Nat)
    (hn : (st.map Job.id).Nodup)
    (hcodec : parseOpts (stringify opts) = some opts) :
    (((addJob stringify st p sid cmd opts uid prio now).1.map Job.id).Nodup) ∧
    (newJobRow stringify st p sid cmd opts uid prio now
        ∈ (addJob stringify st p sid cmd opts uid prio now).1 ∧
      (newJobRow stringify st p sid cmd opts uid prio now).options = stringify opts ∧
      parseOpts (newJobRow stringify st p sid cmd opts uid prio now).options
        = some opts) ∧
    (∀ q r, getNextJobForProject
          (addJob stringify st p sid cmd opts uid prio now).1 q = some r →
        r.id = nextJobId st →
        getNextJobForProjectParsed parseOpts
            (addJob stringify st p sid cmd opts uid prio now).1 q
          = some (r, some opts)) := by
  have hnew : newJobRow stringify st p sid cmd opts uid prio now
      ∈ (addJob stringify st p sid cmd opts uid prio now).1 :=
    List.mem_append.mpr (Or.inr (List.mem_singleton.mpr rfl))
  have hnodup : (((addJob stringify st p sid cmd opts uid prio now).1.map
      Job.id)).Nodup := by
    unfold addJob
    rw [List.map_append]
    rw [List.nodup_append]
    refine ⟨hn, List.nodup_singleton _, ?_⟩
    intro x hx hx'
    have hxid : x = (newJobRow stringify st p sid cmd opts uid prio now).id := by
      simpa using hx'
    rw [hxid] at hx
    exact nextJobId_not_mem st hx
  refine ⟨hnodup, ⟨hnew, rfl, hcodec⟩, ?_⟩
  intro q r hclaim hid
  obtain ⟨hrst, -, -, -⟩ := getNext_some_props hclaim
  have hreq : r = newJobRow stringify st p sid cmd opts uid prio now :=
    List.inj_on_of_nodup_map hnodup hrst hnew (by rw [hid]; rfl)
  unfold getNextJobForProjectParsed
  rw [hclaim, hreq]
  exact congrArg
    (fun o => some (newJobRow stringify st p sid cmd opts uid prio now, o)) hcodec

/-- Witness for C8: with the identity codec on `String` options, the
enqueued blob is stored verbatim and parses back to itself. -/
theorem addJob_options_roundTrip_witness :
    newJobRow (fun s => s) [] "w" none "cmd" "the-options" none 0 3
        ∈ (addJob (fun s => s) [] "w" none "cmd" "the-options" none 0 3).1 ∧
      (newJobRow (fun s => s) [] "w" none "cmd" "the-options" none 0 3).options
        = "the-options" ∧
      (fun s => some s) (newJobRow (fun s => s) [] "w" none "cmd" "the-options"
        none 0 3).options = some "the-options" :=
  (addJob_options_roundTrip (fun s => s) (fun s => some s) [] "w" none "cmd"
    "the-options" none 0 3 (by decide) rfl).2.1

/-! ### `getJobStatus` (claim C10) -/

/-- The snapshot returned by `jobWorker.getJobStatus`. -/
structure JobStatusSnapshot where
  activeJobs : List Job
  workingProjects : List String
  totalWorkers : Nat
  maxConcurrentProjects : Nat
deriving DecidableEq

/-- `jobWorker.getJobStatus`: `try` the store query (its outcome is the
`Except` argument; better-sqlite3 may throw a storage error) and return the
snapshot; on `catch`, return the default snapshot with the configured
concurrency cap. -/
def getJobStatus (queryResult : Except String (List Job))
    (workers : List String) (maxConcurrent : Nat) : JobStatusSnapshot :=
  match queryResult with
  | Except.ok activeJobs =>
    { activeJobs := activeJobs
      workingProjects := workers
      totalWorkers := workers.length
      maxConcurrentProjects := maxConcurrent }
  | Except.error _ =>
    { activeJobs := []
      workingProjects := []
      totalWorkers := 0
      maxConcurrentProjects := maxConcurrent }

/-- **C10.** `getJobStatus` is a total function of the query outcome (it
never raises): a successful `getActiveJobs` query yields the active-job
snapshot with the worker list, worker count and concurrency cap; any storage
error yields the default snapshot (no active jobs, no working projects, zero
workers, the configured cap) instead of propagating. -/
theorem getJobStatus_total (st : List Job) (workers : List String)
    (maxConcurrent : Nat) (e : String) :
    getJobStatus (Except.ok (getActiveJobs st)) workers maxConcurrent
      = ⟨getActiveJobs st, workers, workers.length, maxConcurrent⟩ ∧
    getJobStatus (Except.error e) workers maxConcurrent
      = ⟨[], [], 0, maxConcurrent⟩ :=
  ⟨rfl, rfl⟩

end CCUI
